import Mathlib

/-!
# Verification of the periodic-straddle backtesting core

Shallow embedding of the simulation core of the `Opciones-Financieras`
repository:

* `src/pricing.py` — closed-form Black-Scholes price/greeks engine
  (embedded over `ℝ`, with the float NaN sentinel modelled as `Option ℝ`);
* `src/strategy.py` — the day-by-day straddle strategy state machine
  (embedded over `ℚ`: its bookkeeping is exact field arithmetic, with the
  transcendental Black-Scholes straddle valuation abstracted as an oracle
  parameter `sg`, so every bookkeeping theorem below holds for the actual
  closed-form valuation as a special case);
* `src/execution.py` — the legging-cost Monte-Carlo estimator (embedded
  over `ℝ`, with the seeded standard-normal draws of the generator
  abstracted as an input stream `z`);
* the delta-neutral hedge solver (`delta_neutral_with_option`), which is
  imported by `scripts/run_all.py` from `src.backtest` but has no
  definition in the repository sources, and is therefore modelled from
  the specification.

Dates are modelled as integers counting days from a Monday epoch, so the
weekday of a date `d` is `d % 7` with Monday = 0, matching
`pandas.Timestamp.weekday()`.  Float NaN is modelled throughout as the
`none` value of an `Option`, with NaN-propagating arithmetic.
-/

/-- NaN-propagating addition on sentinel-carrying values: the float sum
of two values is NaN as soon as one of them is NaN. -/
def oadd {α : Type} [Add α] : Option α → Option α → Option α
  | some a, some b => some (a + b)
  | _, _ => none

/-- NaN-propagating subtraction on sentinel-carrying values. -/
def osub {α : Type} [Sub α] : Option α → Option α → Option α
  | some a, some b => some (a - b)
  | _, _ => none

/-! ## Strategy simulator (`src/strategy.py`), over exact rationals -/

/-- The aggregate greeks of one straddle as returned by
`straddle_greeks` in `src/pricing.py` (the `price`/`delta`/`gamma`/
`vega_1pct`/`theta_day` entries of the returned dict), in the valid
(non-NaN) case. -/
structure PG where
  price : ℚ
  delta : ℚ
  gamma : ℚ
  vega_1pct : ℚ
  theta_day : ℚ
deriving DecidableEq, Repr

/-- `StraddleParams` of `src/strategy.py`.  The `roll_frequency`
("W" / "M") field is represented by the period-key function
`SimConfig.pk` below, which abstracts the pandas group-by used by
`_roll_dates`. -/
structure StraddleParams where
  expiry_target_days : ℤ
  strike_round : ℚ
  contracts : ℚ
  multiplier : ℚ
deriving DecidableEq, Repr

/-- `PricingParams` of `src/strategy.py` (the fields the day loop
reads; the volatility-window fields only feed `hist_vol_close`, whose
output enters the simulator as the `sigma` column of the input rows). -/
structure PricingParams where
  risk_free_rate : ℚ
  dividend_yield : ℚ
  days_in_year : ℚ
deriving DecidableEq, Repr

/-- `HedgeParams` of `src/strategy.py`. -/
structure HedgeParams where
  enabled : Bool
  target_delta : ℚ
  rebalance_threshold : ℚ
deriving DecidableEq, Repr

/-- One row of the input price series (`df_spy` after the `datetime`
sort and the sigma-column assignment): a trading date, the close price,
and the annualized volatility for that date, `none` when the float
value is NaN (e.g. inside the warm-up window of the rolling
estimator). -/
structure PriceRow where
  date : ℤ
  close : ℚ
  sigma : Option ℚ
deriving DecidableEq, Repr

/-- The mutable state of the day loop of `simulate_periodic_straddle`:
the current position (`current_K`, `current_expiry`, `in_position`),
the hedge shares and the cash balance. -/
structure SimState where
  current_K : Option ℚ
  current_expiry : Option ℤ
  in_position : Bool
  shares : ℚ
  cash : ℚ
deriving DecidableEq, Repr

/-- One row of the `daily` ledger produced by
`simulate_periodic_straddle` (the dict appended to `daily_rows`).
Fields that the source fills with float NaN in some branch are
`Option`-valued. -/
structure DailyRow where
  date : ℤ
  S : ℚ
  sigma : Option ℚ
  K : Option ℚ
  expiry : Option ℤ
  T_years : Option ℚ
  contracts : ℚ
  shares : ℚ
  opt_price_straddle : Option ℚ
  opt_value : Option ℚ
  delta_opt : Option ℚ
  gamma_opt : Option ℚ
  vega_1pct_opt : Option ℚ
  theta_day_opt : Option ℚ
  cash : ℚ
  equity : Option ℚ
deriving DecidableEq, Repr

/-- A row of the `trades` log: the three discriminated event records
appended to `trades_rows` by `simulate_periodic_straddle`. -/
inductive TradeEvent where
  | rollClose (date : ℤ) (K : ℚ) (expiry : ℤ) (contracts : ℚ) (option_value : Option ℚ)
  | rollOpen (date : ℤ) (K : ℚ) (expiry : ℤ) (contracts : ℚ) (option_value : Option ℚ)
  | hedgeTrade (date : ℤ) (shares_trade : ℚ) (shares_pos : ℚ) (price : ℚ) (cash_after : ℚ)
deriving DecidableEq, Repr

/-- The date an event was recorded at. -/
def eventDate : TradeEvent → ℤ
  | .rollClose t _ _ _ _ => t
  | .rollOpen t _ _ _ _ => t
  | .hedgeTrade t _ _ _ _ => t

/-- Discriminator for `type == "ROLL_CLOSE"`. -/
def TradeEvent.isRollClose : TradeEvent → Bool
  | .rollClose _ _ _ _ _ => true
  | _ => false

/-- Discriminator for `type == "ROLL_OPEN"`. -/
def TradeEvent.isRollOpen : TradeEvent → Bool
  | .rollOpen _ _ _ _ _ => true
  | _ => false

/-- The full parameter set of one simulation run.  `pk` maps a date to
the key of its calendar period ((year, month) for monthly rolls,
ISO (year, week) for weekly rolls), abstracting the pandas group-by of
`_roll_dates`; `sg` is the `straddle_greeks` valuation of
`src/pricing.py` (`none` abstracts its all-NaN result on degenerate
inputs). -/
structure SimConfig where
  straddle : StraddleParams
  pricing : PricingParams
  hedge : HedgeParams
  pk : ℤ → ℤ
  sg : ℚ → ℚ → ℚ → ℚ → ℚ → ℚ → Option PG

/-- Python `round` (round-half-to-even) on a rational. -/
def pyRound (x : ℚ) : ℤ :=
  let f := ⌊x⌋
  let frac := x - (f : ℚ)
  if frac < 1/2 then f
  else if 1/2 < frac then f + 1
  else if 2 ∣ f then f else f + 1

/-- `_round_to_step` of `src/strategy.py`: round a spot to the strike
increment (identity when the step is non-positive). -/
def _round_to_step (x step : ℚ) : ℚ :=
  if step ≤ 0 then x else (pyRound (x / step) : ℚ) * step

/-- `_pick_expiry_date` of `src/strategy.py`: target date
`roll_date + target_days`, moved back to the preceding Friday when it
falls on a weekend.  The source's `while weekday ≥ 5` loop runs at most
twice (Saturday → minus one day, Sunday → minus two), which is unrolled
here. -/
def _pick_expiry_date (t : ℤ) (target_days : ℤ) : ℤ :=
  let e := t + target_days
  if e % 7 = 5 then e - 1 else if e % 7 = 6 then e - 2 else e

/-- Membership in the roll schedule computed by `_roll_dates`: the
group-by-period / take-minimum of the source makes `t` a roll date
exactly when `t` occurs in the index and no earlier index date shares
its period key. -/
def isRollDate (dates : List ℤ) (pk : ℤ → ℤ) (t : ℤ) : Bool :=
  decide (t ∈ dates) && dates.all fun s => decide (pk s = pk t → t ≤ s)

/-- The roll flag the day loop consults (`t in roll_dates`). -/
def rollFlag (rows : List PriceRow) (pk : ℤ → ℤ) : ℤ → Bool :=
  fun t => isRollDate (rows.map PriceRow.date) pk t

/-- Result of the roll block (step 1 of the day loop). -/
structure RollOut where
  state : SimState
  events : List TradeEvent

/-- Step 1 of the day loop of `simulate_periodic_straddle`: when the
date is a roll date, no position is held, or the held position has
reached expiry, close the outgoing position (crediting its theoretical
value to cash when it is computable) and open a new straddle at the
rounded spot (debiting its theoretical cost when computable).  `ro` is
the precomputed `t in roll_dates` flag. -/
def rollStep (cfg : SimConfig) (ro : Bool) (t : ℤ) (S : ℚ) (sig : Option ℚ)
    (st : SimState) : RollOut :=
  let c := cfg.straddle.contracts
  let m := cfg.straddle.multiplier
  let r := cfg.pricing.risk_free_rate
  let q := cfg.pricing.dividend_yield
  let diy := cfg.pricing.days_in_year
  if ro || !st.in_position ||
      (match st.current_expiry with | some e => decide (e ≤ t) | none => false) then
    let closed : ℚ × List TradeEvent :=
      match st.in_position, st.current_K, st.current_expiry with
      | true, some K, some ex =>
          let T_old := max (((ex - t : ℤ) : ℚ) / diy) (1/1000000000)
          let ov : Option ℚ :=
            match sig with
            | some s => (cfg.sg S K T_old r s q).map fun g => g.price * c * m
            | none => none
          let cash1 := match ov with | some v => st.cash + v | none => st.cash
          (cash1, [TradeEvent.rollClose t K ex c ov])
      | _, _, _ => (st.cash, [])
    let newExpiry := _pick_expiry_date t cfg.straddle.expiry_target_days
    let newK := _round_to_step S cfg.straddle.strike_round
    let T_new := max (((newExpiry - t : ℤ) : ℚ) / diy) (1/1000000000)
    let ov2 : Option ℚ :=
      match sig with
      | some s => (cfg.sg S newK T_new r s q).map fun g => g.price * c * m
      | none => none
    let cash2 := match ov2 with | some v => closed.1 - v | none => closed.1
    { state := { current_K := some newK, current_expiry := some newExpiry,
                 in_position := true, shares := st.shares, cash := cash2 },
      events := closed.2 ++ [TradeEvent.rollOpen t newK newExpiry c ov2] }
  else { state := st, events := [] }

/-- The quantities produced by the daily mark-to-market block (step 2
of the day loop).  In the source's else-branch, `T` and `opt_price` are
float NaN while `opt_value` and the portfolio greeks are the float
`0.0`. -/
structure MarkOut where
  T_years : Option ℚ
  opt_price : Option ℚ
  opt_value : Option ℚ
  delta : Option ℚ
  gamma : Option ℚ
  vega : Option ℚ
  theta : Option ℚ
deriving DecidableEq, Repr

/-- Step 2 of the day loop: mark the held straddle to market when a
position is held and the day's volatility is finite; otherwise record
NaN time/price and zero value/greeks. -/
def markStep (cfg : SimConfig) (t : ℤ) (S : ℚ) (sig : Option ℚ)
    (st : SimState) : MarkOut :=
  match st.in_position, st.current_K, st.current_expiry, sig with
  | true, some K, some ex, some s =>
      let T := max (((ex - t : ℤ) : ℚ) / cfg.pricing.days_in_year) (1/1000000000)
      let stG := cfg.sg S K T cfg.pricing.risk_free_rate s cfg.pricing.dividend_yield
      let c := cfg.straddle.contracts
      let m := cfg.straddle.multiplier
      { T_years := some T
        opt_price := stG.map fun g => g.price
        opt_value := stG.map fun g => g.price * c * m
        delta := stG.map fun g => g.delta * c * m
        gamma := stG.map fun g => g.gamma * c * m
        vega := stG.map fun g => g.vega_1pct * c * m
        theta := stG.map fun g => g.theta_day * c * m }
  | _, _, _, _ =>
      { T_years := none, opt_price := none, opt_value := some 0,
        delta := some 0, gamma := some 0, vega := some 0, theta := some 0 }

/-- Result of the hedge block (step 3 of the day loop). -/
structure HedgeOut where
  state : SimState
  events : List TradeEvent

/-- Step 3 of the day loop: when hedging is enabled, a position is held
and the portfolio option delta is finite, rebalance the underlying
hedge to the target delta whenever the total delta deviates from the
target by more than the threshold. -/
def hedgeStep (cfg : SimConfig) (t : ℤ) (S : ℚ) (portDelta : Option ℚ)
    (st : SimState) : HedgeOut :=
  match cfg.hedge.enabled && st.in_position, portDelta with
  | true, some pd =>
      let total := pd + st.shares
      if |total - cfg.hedge.target_delta| > cfg.hedge.rebalance_threshold then
        let desired := cfg.hedge.target_delta - pd
        let tr := desired - st.shares
        let cash1 := st.cash - tr * S
        { state := { current_K := st.current_K, current_expiry := st.current_expiry,
                     in_position := st.in_position, shares := desired, cash := cash1 },
          events := [TradeEvent.hedgeTrade t tr desired S cash1] }
      else { state := st, events := [] }
  | _, _ => { state := st, events := [] }

/-- Result of one full iteration of the day loop. -/
structure StepOut where
  state : SimState
  row : DailyRow
  events : List TradeEvent

/-- One full iteration of the day loop of `simulate_periodic_straddle`:
roll, mark, hedge, then record the daily ledger row with
`equity = cash + opt_value + shares * S`. -/
def step (cfg : SimConfig) (ro : ℤ → Bool) (st : SimState) (row : PriceRow) : StepOut :=
  let t := row.date
  let S := row.close
  let sig := row.sigma
  let o1 := rollStep cfg (ro t) t S sig st
  let mk := markStep cfg t S sig o1.state
  let o2 := hedgeStep cfg t S mk.delta o1.state
  let equity := mk.opt_value.map fun v => o2.state.cash + v + o2.state.shares * S
  { state := o2.state
    row := { date := t, S := S, sigma := sig,
             K := o2.state.current_K, expiry := o2.state.current_expiry,
             T_years := mk.T_years, contracts := cfg.straddle.contracts,
             shares := o2.state.shares,
             opt_price_straddle := mk.opt_price, opt_value := mk.opt_value,
             delta_opt := mk.delta, gamma_opt := mk.gamma,
             vega_1pct_opt := mk.vega, theta_day_opt := mk.theta,
             cash := o2.state.cash, equity := equity }
    events := o1.events ++ o2.events }

/-- Run the day loop over the remaining rows from a given state,
collecting the daily ledger and the trade log. -/
def runFrom (cfg : SimConfig) (ro : ℤ → Bool) :
    SimState → List PriceRow → List DailyRow × List TradeEvent
  | _, [] => ([], [])
  | st, row :: rest =>
      ((step cfg ro st row).row :: (runFrom cfg ro (step cfg ro st row).state rest).1,
       (step cfg ro st row).events ++ (runFrom cfg ro (step cfg ro st row).state rest).2)

/-- The state after processing a prefix of the rows. -/
def stateAfter (cfg : SimConfig) (ro : ℤ → Bool) :
    SimState → List PriceRow → SimState
  | st, [] => st
  | st, row :: rest => stateAfter cfg ro (step cfg ro st row).state rest

/-- The initial state of the day loop. -/
def initState (initial_cash : ℚ) : SimState :=
  { current_K := none, current_expiry := none, in_position := false,
    shares := 0, cash := initial_cash }

/-- `simulate_periodic_straddle` of `src/strategy.py`: precompute the
roll schedule over the (date-sorted) index, then fold the day loop,
returning the daily ledger and the trade log.  The source's final sort
of the trade log by datetime is the identity on the already
date-ordered appended log. -/
def simulate_periodic_straddle (cfg : SimConfig) (rows : List PriceRow)
    (initial_cash : ℚ) : List DailyRow × List TradeEvent :=
  runFrom cfg (rollFlag rows cfg.pk) (initState initial_cash) rows

/-! ## Pricing engine (`src/pricing.py`), over the reals

Float arithmetic is modelled by exact real arithmetic; the all-NaN
`BSGreeks(nan, nan, nan, nan, nan)` sentinel returned on degenerate
inputs is modelled by `none` in every field. -/

/-- The Gauss error function, `math.erf`. -/
noncomputable def erf (x : ℝ) : ℝ :=
  (2 / Real.sqrt Real.pi) * ∫ t in (0:ℝ)..x, Real.exp (-(t^2))

/-- `norm_pdf` of `src/pricing.py`: the standard normal density. -/
noncomputable def norm_pdf (x : ℝ) : ℝ :=
  (1 / Real.sqrt (2 * Real.pi)) * Real.exp (-(1/2) * x^2)

/-- `norm_cdf` of `src/pricing.py`: `0.5 * (1 + erf (x / sqrt 2))`. -/
noncomputable def norm_cdf (x : ℝ) : ℝ :=
  (1/2) * (1 + erf (x / Real.sqrt 2))

/-- Option right: call or put. -/
inductive OptionType where
  | C
  | P
deriving DecidableEq, Repr

/-- `BSGreeks` of `src/pricing.py`; each float field is `none` when the
source would hold NaN. -/
structure BSGreeks where
  price : Option ℝ
  delta : Option ℝ
  gamma : Option ℝ
  vega_1pct : Option ℝ
  theta_day : Option ℝ

/-- The all-NaN sentinel `BSGreeks(nan, nan, nan, nan, nan)` returned
for degenerate inputs. -/
def BSGreeks.undefined : BSGreeks :=
  { price := none, delta := none, gamma := none, vega_1pct := none, theta_day := none }

/-- `bs_price_greeks` of `src/pricing.py`: European Black-Scholes price
and greeks with continuous dividend yield `q`.  Degenerate inputs
(`S ≤ 0`, `K ≤ 0`, `T ≤ 0` or `σ ≤ 0`) short-circuit to the all-NaN
sentinel; otherwise every field is a well-defined real. -/
noncomputable def bs_price_greeks (S K T r sigma : ℝ) (opt_type : OptionType)
    (q : ℝ) (days_in_year : ℝ) : BSGreeks :=
  if S ≤ 0 ∨ K ≤ 0 ∨ T ≤ 0 ∨ sigma ≤ 0 then BSGreeks.undefined
  else
    let sqrtT := Real.sqrt T
    let d1 := (Real.log (S / K) + (r - q + (1/2) * sigma * sigma) * T) / (sigma * sqrtT)
    let d2 := d1 - sigma * sqrtT
    let Nd1 := norm_cdf d1
    let Nd2 := norm_cdf d2
    let n_d1 := norm_pdf d1
    let disc_r := Real.exp (-(r * T))
    let disc_q := Real.exp (-(q * T))
    let price := match opt_type with
      | .C => disc_q * S * Nd1 - disc_r * K * Nd2
      | .P => disc_r * K * norm_cdf (-d2) - disc_q * S * norm_cdf (-d1)
    let delta := match opt_type with
      | .C => disc_q * Nd1
      | .P => -(disc_q * norm_cdf (-d1))
    let theta_year := match opt_type with
      | .C => -(disc_q * (S * n_d1 * sigma)) / (2 * sqrtT) - r * disc_r * K * Nd2
              + q * disc_q * S * Nd1
      | .P => -(disc_q * (S * n_d1 * sigma)) / (2 * sqrtT) + r * disc_r * K * norm_cdf (-d2)
              - q * disc_q * S * norm_cdf (-d1)
    let gamma := disc_q * n_d1 / (S * sigma * sqrtT)
    let vega := disc_q * S * n_d1 * sqrtT
    { price := some price, delta := some delta, gamma := some gamma,
      vega_1pct := some (vega / 100), theta_day := some (theta_year / days_in_year) }

/-- The dict returned by `straddle_greeks` of `src/pricing.py`:
componentwise sums of the call and put greeks plus the two leg
prices. -/
structure StraddleGreeksR where
  price : Option ℝ
  delta : Option ℝ
  gamma : Option ℝ
  vega_1pct : Option ℝ
  theta_day : Option ℝ
  call_price : Option ℝ
  put_price : Option ℝ

/-- `straddle_greeks` of `src/pricing.py` (long call + long put at the
same strike and expiry), with float NaN propagation through the
sums. -/
noncomputable def straddle_greeks (S K T r sigma q days_in_year : ℝ) : StraddleGreeksR :=
  let call := bs_price_greeks S K T r sigma .C q days_in_year
  let put := bs_price_greeks S K T r sigma .P q days_in_year
  { price := oadd call.price put.price
    delta := oadd call.delta put.delta
    gamma := oadd call.gamma put.gamma
    vega_1pct := oadd call.vega_1pct put.vega_1pct
    theta_day := oadd call.theta_day put.theta_day
    call_price := call.price
    put_price := put.price }

/-! ## Execution-cost simulator (`src/execution.py`), over the reals -/

/-- `ExecutionParams` of `src/execution.py`.  The `seed` field is
represented by the abstract standard-normal draw stream passed to
`simulate_legging_cost` below. -/
structure ExecutionParams where
  slippage_bps_combo : ℝ
  slippage_bps_leg : ℝ
  leg_delay_seconds : ℝ
  n_sims : ℕ
  multiplier : ℝ
  contracts : ℝ
  seconds_in_year : ℝ

/-- `_apply_slippage` of `src/execution.py`. -/
noncomputable def _apply_slippage (price bps : ℝ) : ℝ :=
  price * (1 + bps / 10000)

/-- The dict returned by `price_straddle_combo`. -/
structure ComboResult where
  raw_straddle : Option ℝ
  exec_straddle : Option ℝ
  total_cost : Option ℝ

/-- `price_straddle_combo` of `src/execution.py`: both legs priced at
the same spot, summed, with the combo slippage multiplier applied. -/
noncomputable def price_straddle_combo (S K T r sigma q : ℝ)
    (params : ExecutionParams) : ComboResult :=
  let call := bs_price_greeks S K T r sigma .C q 365
  let put := bs_price_greeks S K T r sigma .P q 365
  let raw := oadd call.price put.price
  let px := raw.map fun p => _apply_slippage p params.slippage_bps_combo
  { raw_straddle := raw
    exec_straddle := px
    total_cost := px.map fun p => p * params.contracts * params.multiplier }

/-- Leg execution order. -/
inductive LegOrder where
  | C_then_P
  | P_then_C
deriving DecidableEq, Repr

/-- The per-sample data computed by `simulate_legging_cost` (the means
and percentiles the source reports are summaries of the `extra` and
`total_extra` samples exposed here). -/
structure LeggingSim where
  dS : List ℝ
  combo_exec : Option ℝ
  exec_legs : List (Option ℝ)
  extra : List (Option ℝ)
  total_exec_legs : List (Option ℝ)
  total_extra : List (Option ℝ)

/-- `simulate_legging_cost` of `src/execution.py`.  The draw
`rng.normal(loc := 0, scale := S * sigma * sqrt dt_years)` of the
seeded generator is modelled as `0 + scale * z i` where `z` is the
generator's stream of standard normal draws (the Gaussianity of `z` is
a property of the external generator; the location and scale applied
to it are code and appear below). -/
noncomputable def simulate_legging_cost (S K T r sigma q : ℝ)
    (params : ExecutionParams) (order : LegOrder) (z : ℕ → ℝ) : LeggingSim :=
  let dt_years := params.leg_delay_seconds / params.seconds_in_year
  let dS := (List.range params.n_sims).map fun i =>
    0 + S * sigma * Real.sqrt dt_years * z i
  let S2 := dS.map fun d => S + d
  let call1 := (bs_price_greeks S K T r sigma .C q 365).price
  let put1 := (bs_price_greeks S K T r sigma .P q 365).price
  let call2 := S2.map fun s => (bs_price_greeks s K T r sigma .C q 365).price
  let put2 := S2.map fun s => (bs_price_greeks s K T r sigma .P q 365).price
  let raw_legs := match order with
    | .C_then_P => put2.map fun p => oadd call1 p
    | .P_then_C => call2.map fun c => oadd put1 c
  let exec_legs := raw_legs.map (Option.map fun p => _apply_slippage p params.slippage_bps_leg)
  let combo := price_straddle_combo S K T r sigma q params
  let extra := exec_legs.map fun e => osub e combo.exec_straddle
  { dS := dS
    combo_exec := combo.exec_straddle
    exec_legs := exec_legs
    extra := extra
    total_exec_legs := exec_legs.map (Option.map fun e => e * params.contracts * params.multiplier)
    total_extra := extra.map (Option.map fun e => e * params.contracts * params.multiplier) }

/-! ## Delta-neutral hedge solver -/

/-- The result record of the delta-neutral hedge solver: the hedge
ratio and the base, hedge and total greek vectors. -/
structure DeltaNeutralResult where
  n_hedge : ℚ
  base : PG
  hedgeLeg : PG
  total : PG
deriving DecidableEq, Repr

/-- Componentwise linear combination `b + n * h` of two greek
vectors. -/
def pgLinComb (b h : PG) (n : ℚ) : PG :=
  { price := b.price + n * h.price
    delta := b.delta + n * h.delta
    gamma := b.gamma + n * h.gamma
    vega_1pct := b.vega_1pct + n * h.vega_1pct
    theta_day := b.theta_day + n * h.theta_day }

/-- Modelled from the spec: `delta_neutral_with_option` is imported by
`scripts/run_all.py` from `src.backtest`, but `src/backtest.py` in the
repository contains a copy of the backtest driver script and defines no
such function, so the solver itself is missing from the sources.  Per
spec section 4.5: the ratio `n` solves `base_delta + n * hedge_delta = 0`,
i.e. `n = -base_delta / hedge_delta`; the solver fails (reports an
error condition, not a crash) when `|hedge_delta|` is below the
numerical tolerance `1e-8`; `total = base + n * hedge` for every greek,
a pure linear combination. -/
def delta_neutral_with_option (base hedgeG : PG) : Except String DeltaNeutralResult :=
  if |hedgeG.delta| < 1/100000000 then
    .error "hedge option delta too close to zero; cannot neutralize delta"
  else
    let n := -base.delta / hedgeG.delta
    .ok { n_hedge := n, base := base, hedgeLeg := hedgeG, total := pgLinComb base hedgeG n }

/-! ## Concrete fixtures used by witnesses and counterexamples -/

/-- A small concrete configuration: one contract, unit multiplier, no
strike rounding, five-day target expiry, hedging disabled, a constant
period key (all dates in one roll period) and a constant valuation
oracle. -/
def cfgA : SimConfig :=
  { straddle := { expiry_target_days := 5, strike_round := 0, contracts := 1, multiplier := 1 }
    pricing := { risk_free_rate := 0, dividend_yield := 0, days_in_year := 365 }
    hedge := { enabled := false, target_delta := 0, rebalance_threshold := 1/20 }
    pk := fun _ => 0
    sg := fun _ _ _ _ _ _ => some { price := 1, delta := 0, gamma := 0, vega_1pct := 0, theta_day := 0 } }

/-- Two trading days; the second day's volatility is NaN. -/
def rowsA : List PriceRow :=
  [{ date := 0, close := 5, sigma := some 1 }, { date := 1, close := 5, sigma := none }]

/-- The first ledger row of the `cfgA`/`rowsA` run. -/
def rowA0 : DailyRow :=
  { date := 0, S := 5, sigma := some 1, K := some 5, expiry := some 4,
    T_years := some (4/365), contracts := 1, shares := 0,
    opt_price_straddle := some 1, opt_value := some 1,
    delta_opt := some 0, gamma_opt := some 0, vega_1pct_opt := some 0,
    theta_day_opt := some 0, cash := 99, equity := some 100 }

/-- The second ledger row of the `cfgA`/`rowsA` run: volatility NaN
while the position opened on day 0 is held. -/
def rowA1 : DailyRow :=
  { date := 1, S := 5, sigma := none, K := some 5, expiry := some 4,
    T_years := none, contracts := 1, shares := 0,
    opt_price_straddle := none, opt_value := some 0,
    delta_opt := some 0, gamma_opt := some 0, vega_1pct_opt := some 0,
    theta_day_opt := some 0, cash := 99, equity := some 99 }

/-- Adjacent-pair relation on the trade log: a ROLL_CLOSE is
immediately followed by a ROLL_OPEN recorded at the same date. -/
def closeThenOpen (a b : TradeEvent) : Prop :=
  a.isRollClose = true → (b.isRollOpen = true ∧ eventDate b = eventDate a)

/-- Adjacent-pair relation on the trade log: recording dates are
nondecreasing. -/
def dateMono (a b : TradeEvent) : Prop :=
  eventDate a ≤ eventDate b

/-- A held state used by step-level witnesses. -/
def stB : SimState :=
  { current_K := some 5, current_expiry := some 4, in_position := true,
    shares := 0, cash := 99 }

/-- `cfgA` with hedging enabled (target delta 0, threshold 1/20). -/
def cfgB : SimConfig :=
  { cfgA with hedge := { enabled := true, target_delta := 0, rebalance_threshold := 1/20 } }

/-! ## Theorems -/

/-- Each day-loop iteration records `equity = cash + opt_value +
shares * S` with exactly the values stored in the same row. -/
theorem step_row_equity (cfg : SimConfig) (ro : ℤ → Bool) (st : SimState) (row : PriceRow) :
    ((step cfg ro st row).row).equity =
      ((step cfg ro st row).row).opt_value.map
        (fun v => ((step cfg ro st row).row).cash + v +
          ((step cfg ro st row).row).shares * ((step cfg ro st row).row).S) := rfl

/-- The equity identity holds for every ledger row produced from any
start state. -/
theorem runFrom_equity (cfg : SimConfig) (ro : ℤ → Bool) :
    ∀ (rows : List PriceRow) (st : SimState) (d : DailyRow),
      d ∈ (runFrom cfg ro st rows).1 →
      d.equity = d.opt_value.map (fun v => d.cash + v + d.shares * d.S) := by
  intro rows
  induction rows with
  | nil => intro st d hd; simp [runFrom] at hd
  | cons row rest ih =>
      intro st d hd
      simp only [runFrom, List.mem_cons] at hd
      rcases hd with h | h
      · subst h; exact step_row_equity cfg ro st row
      · exact ih _ d h

/-- C1: For every row of the daily ledger produced by
`simulate_periodic_straddle`, the recorded equity equals the recorded
cash plus the recorded option mark value (`opt_value`) plus recorded
hedge shares times the recorded spot, exactly, on every trading date
regardless of whether a roll or hedge occurred that day.  (Rows whose
`opt_value` is the NaN sentinel have the NaN sentinel as equity, which
is exactly the sentinel-lifted sum.) -/
theorem equity_identity (cfg : SimConfig) (rows : List PriceRow) (initial_cash : ℚ)
    (d : DailyRow) (hd : d ∈ (simulate_periodic_straddle cfg rows initial_cash).1) :
    d.equity = d.opt_value.map (fun v => d.cash + v + d.shares * d.S) :=
  runFrom_equity cfg (rollFlag rows cfg.pk) rows (initState initial_cash) d hd

/-- The daily ledger of the concrete `cfgA`/`rowsA` run, evaluated. -/
theorem runA_daily : (simulate_periodic_straddle cfgA rowsA 100).1 = [rowA0, rowA1] := by
  show (runFrom cfgA (rollFlag rowsA cfgA.pk) (initState 100) rowsA).1 = [rowA0, rowA1]
  norm_num [runFrom, step, rollStep, markStep, hedgeStep, rollFlag, isRollDate,
    _pick_expiry_date, _round_to_step, initState, cfgA, rowsA, rowA0, rowA1,
    List.all, max_def]

theorem equity_identity_witness :
    rowA0 ∈ (simulate_periodic_straddle cfgA rowsA 100).1 ∧
      rowA0.equity = rowA0.opt_value.map (fun v => rowA0.cash + v + rowA0.shares * rowA0.S) :=
  ⟨by rw [runA_daily]; simp, equity_identity cfgA rowsA 100 rowA0 (by rw [runA_daily]; simp)⟩

/-- C10: if volatility is undefined (NaN) on a date that triggers a
roll while a position is held, the outgoing position's closing value is
never credited to cash and the incoming position's entry cost is never
debited — cash is left unchanged by both legs of the roll — yet
ROLL_CLOSE and ROLL_OPEN events are still appended to the trade log
with NaN recorded as their option_value, and the new strike and expiry
are still set from that day's spot (and date). -/
theorem roll_with_undefined_vol (cfg : SimConfig) (ro : Bool) (t : ℤ) (S : ℚ)
    (st : SimState) (K : ℚ) (ex : ℤ)
    (hpos : st.in_position = true) (hK : st.current_K = some K)
    (hex : st.current_expiry = some ex) (htrig : ro = true ∨ ex ≤ t) :
    rollStep cfg ro t S none st =
      { state := { current_K := some (_round_to_step S cfg.straddle.strike_round),
                   current_expiry := some (_pick_expiry_date t cfg.straddle.expiry_target_days),
                   in_position := true, shares := st.shares, cash := st.cash },
        events := [TradeEvent.rollClose t K ex cfg.straddle.contracts none,
                   TradeEvent.rollOpen t (_round_to_step S cfg.straddle.strike_round)
                     (_pick_expiry_date t cfg.straddle.expiry_target_days)
                     cfg.straddle.contracts none] } := by
  unfold rollStep
  rcases htrig with h | h
  · subst h
    simp [hpos, hK, hex]
  · simp [hpos, hK, hex, h]

/-- Witness for C10: a roll on day 6 (the held position expired on
day 4) with NaN volatility leaves cash untouched and logs both roll
events with NaN values. -/
theorem roll_with_undefined_vol_witness :
    rollStep cfgA false 6 7 none stB =
      { state := { current_K := some (_round_to_step 7 cfgA.straddle.strike_round),
                   current_expiry := some (_pick_expiry_date 6 cfgA.straddle.expiry_target_days),
                   in_position := true, shares := stB.shares, cash := stB.cash },
        events := [TradeEvent.rollClose 6 5 4 cfgA.straddle.contracts none,
                   TradeEvent.rollOpen 6 (_round_to_step 7 cfgA.straddle.strike_round)
                     (_pick_expiry_date 6 cfgA.straddle.expiry_target_days)
                     cfgA.straddle.contracts none] } :=
  roll_with_undefined_vol cfgA false 6 7 stB 5 4 rfl rfl rfl (Or.inr (by decide))

/-- C6: when hedging is enabled and a position is held with a finite
portfolio option delta `pd`: if `|pd + shares − target|` exceeds the
rebalance threshold, the new hedge shares are `target − pd` (so the
total delta equals the target exactly after the trade), the traded
quantity is the signed difference from the previous shares, cash is
debited by quantity × spot, and a HEDGE_TRADE event is appended;
otherwise shares and cash are unchanged by the hedging step and no
event is appended. -/
theorem hedge_rebalance (cfg : SimConfig) (t : ℤ) (S pd : ℚ) (st : SimState)
    (hen : cfg.hedge.enabled = true) (hpos : st.in_position = true) :
    (|pd + st.shares - cfg.hedge.target_delta| > cfg.hedge.rebalance_threshold →
      hedgeStep cfg t S (some pd) st =
        { state := { current_K := st.current_K, current_expiry := st.current_expiry,
                     in_position := st.in_position,
                     shares := cfg.hedge.target_delta - pd,
                     cash := st.cash - (cfg.hedge.target_delta - pd - st.shares) * S },
          events := [TradeEvent.hedgeTrade t (cfg.hedge.target_delta - pd - st.shares)
            (cfg.hedge.target_delta - pd) S
            (st.cash - (cfg.hedge.target_delta - pd - st.shares) * S)] } ∧
        pd + (hedgeStep cfg t S (some pd) st).state.shares = cfg.hedge.target_delta) ∧
    (¬ |pd + st.shares - cfg.hedge.target_delta| > cfg.hedge.rebalance_threshold →
      hedgeStep cfg t S (some pd) st = { state := st, events := [] }) := by
  constructor
  · intro hgt
    refine ⟨?_, ?_⟩
    · unfold hedgeStep
      simp only [hen, hpos, Bool.and_self]
      rw [if_pos hgt]
    · unfold hedgeStep
      simp only [hen, hpos, Bool.and_self]
      rw [if_pos hgt]
      show pd + (cfg.hedge.target_delta - pd) = cfg.hedge.target_delta
      ring
  · intro hle
    unfold hedgeStep
    simp only [hen, hpos, Bool.and_self]
    rw [if_neg hle]

/-- Witness for C6: with option delta 1, zero shares and target 0, the
deviation 1 exceeds the threshold 1/20, so the hedge trades to
`target − delta = −1` shares. -/
theorem hedge_rebalance_witness :
    hedgeStep cfgB 0 10 (some 1) stB =
      { state := { current_K := stB.current_K, current_expiry := stB.current_expiry,
                   in_position := stB.in_position,
                   shares := cfgB.hedge.target_delta - 1,
                   cash := stB.cash - (cfgB.hedge.target_delta - 1 - stB.shares) * 10 },
        events := [TradeEvent.hedgeTrade 0 (cfgB.hedge.target_delta - 1 - stB.shares)
          (cfgB.hedge.target_delta - 1) 10
          (stB.cash - (cfgB.hedge.target_delta - 1 - stB.shares) * 10)] } ∧
      (1 : ℚ) + (hedgeStep cfgB 0 10 (some 1) stB).state.shares = cfgB.hedge.target_delta :=
  (hedge_rebalance cfgB 0 10 1 stB rfl rfl).1 (by norm_num [cfgB, cfgA, stB])

/-- With an undefined (NaN) day volatility the mark block takes its
else-branch: NaN time and mark price, zero mark value and zero
portfolio greeks. -/
theorem markStep_sigma_none (cfg : SimConfig) (t : ℤ) (S : ℚ) (st : SimState) :
    markStep cfg t S none st =
      { T_years := none, opt_price := none, opt_value := some 0,
        delta := some 0, gamma := some 0, vega := some 0, theta := some 0 } := by
  unfold markStep
  rcases st with ⟨K, ex, ip, sh, ca⟩
  rcases ip <;> rcases K <;> rcases ex <;> rfl

/-- The ledger row of a NaN-volatility day records a NaN mark price
and a `0.0` mark value. -/
theorem step_sigma_none (cfg : SimConfig) (ro : ℤ → Bool) (st : SimState) (row : PriceRow)
    (hs : row.sigma = none) :
    (step cfg ro st row).row.opt_price_straddle = none ∧
      (step cfg ro st row).row.opt_value = some 0 := by
  unfold step
  simp [hs, markStep_sigma_none]

/-- The day loop appends exactly one ledger row per input date. -/
theorem runFrom_length (cfg : SimConfig) (ro : ℤ → Bool) :
    ∀ (rows : List PriceRow) (st : SimState),
      (runFrom cfg ro st rows).1.length = rows.length := by
  intro rows
  induction rows with
  | nil => intro st; rfl
  | cons row rest ih => intro st; simp [runFrom, ih]

/-- Counterexample to C8 as stated: in the concrete `cfgA`/`rowsA` run,
day 1 holds a position (`K` is set) and has NaN volatility, yet the
recorded option mark value `opt_value` is the float `0.0`, not the NaN
sentinel — the NaN goes to the mark price column `opt_price_straddle`
instead. -/
theorem mark_value_nan_counterexample :
    ¬ (∀ d ∈ (simulate_periodic_straddle cfgA rowsA 100).1,
        d.K.isSome = true → d.sigma = none → d.opt_value = none) := by
  intro h
  have h1 := h rowA1 (by rw [runA_daily]; simp) (by simp [rowA1]) (by simp [rowA1])
  simp [rowA1] at h1

/-- C8 (amended): for every date whose volatility is undefined (not
finite) — in particular every such date on which a position is held —
the straddle's daily mark price (`opt_price_straddle`) is recorded as
undefined (NaN) and its mark value (`opt_value`) as `0.0` in that
date's ledger row, and the simulation does not halt: every input date
still produces its ledger row, so cash and hedge shares continue to
evolve. -/
theorem mark_nan_simulation_continues (cfg : SimConfig) (rows : List PriceRow)
    (initial_cash : ℚ) :
    (simulate_periodic_straddle cfg rows initial_cash).1.length = rows.length ∧
    ∀ d ∈ (simulate_periodic_straddle cfg rows initial_cash).1,
      d.sigma = none → d.opt_price_straddle = none ∧ d.opt_value = some 0 := by
  constructor
  · exact runFrom_length cfg (rollFlag rows cfg.pk) rows (initState initial_cash)
  · show ∀ d ∈ (runFrom cfg (rollFlag rows cfg.pk) (initState initial_cash) rows).1, _
    generalize initState initial_cash = st
    generalize rollFlag rows cfg.pk = ro
    induction rows generalizing st with
    | nil => intro d hd; simp [runFrom] at hd
    | cons row rest ih =>
        intro d hd hs
        simp only [runFrom, List.mem_cons] at hd
        rcases hd with h | h
        · subst h
          exact step_sigma_none cfg ro st row hs
        · exact ih _ d h hs

/-- Witness for C8 (amended) on the concrete two-day run. -/
theorem mark_nan_simulation_continues_witness :
    (simulate_periodic_straddle cfgA rowsA 100).1.length = rowsA.length ∧
      (rowA1.opt_price_straddle = none ∧ rowA1.opt_value = some 0) :=
  ⟨(mark_nan_simulation_continues cfgA rowsA 100).1,
    (mark_nan_simulation_continues cfgA rowsA 100).2 rowA1 (by rw [runA_daily]; simp) rfl⟩

/-- The roll block emits no event, a single ROLL_OPEN, or a ROLL_CLOSE
immediately followed by a ROLL_OPEN, all recorded at the processing
date. -/
theorem rollStep_events_shape (cfg : SimConfig) (ro : Bool) (t : ℤ) (S : ℚ)
    (sig : Option ℚ) (st : SimState) :
    (rollStep cfg ro t S sig st).events = [] ∨
    (∃ K2 ex2 ov2, (rollStep cfg ro t S sig st).events =
        [TradeEvent.rollOpen t K2 ex2 cfg.straddle.contracts ov2]) ∨
    (∃ K ex ov K2 ex2 ov2, (rollStep cfg ro t S sig st).events =
        [TradeEvent.rollClose t K ex cfg.straddle.contracts ov,
         TradeEvent.rollOpen t K2 ex2 cfg.straddle.contracts ov2]) := by
  unfold rollStep
  rcases st with ⟨K?, ex?, ip, sh, ca⟩
  split
  · rcases ip <;> rcases K? with _ | K <;> rcases ex? with _ | ex <;>
      first
        | (right; right; exact ⟨_, _, _, _, _, _, rfl⟩)
        | (right; left; exact ⟨_, _, _, rfl⟩)
  · left; rfl

/-- The hedge block emits no event or a single HEDGE_TRADE at the
processing date. -/
theorem hedgeStep_events_shape (cfg : SimConfig) (t : ℤ) (S : ℚ) (pd : Option ℚ)
    (st : SimState) :
    (hedgeStep cfg t S pd st).events = [] ∨
    ∃ a b p c, (hedgeStep cfg t S pd st).events = [TradeEvent.hedgeTrade t a b p c] := by
  unfold hedgeStep
  cases hb : cfg.hedge.enabled && st.in_position
  · cases pd <;> exact Or.inl rfl
  · cases pd
    · exact Or.inl rfl
    · dsimp only
      split
      · right; exact ⟨_, _, _, _, rfl⟩
      · left; rfl

/-- The events of one day-loop iteration are the roll events followed
by the hedge events. -/
theorem step_events_eq (cfg : SimConfig) (ro : ℤ → Bool) (st : SimState) (row : PriceRow) :
    (step cfg ro st row).events =
      (rollStep cfg (ro row.date) row.date row.close row.sigma st).events ++
      (hedgeStep cfg row.date row.close
        (markStep cfg row.date row.close row.sigma
          (rollStep cfg (ro row.date) row.date row.close row.sigma st).state).delta
        (rollStep cfg (ro row.date) row.date row.close row.sigma st).state).events := rfl

/-- Every event of one day-loop iteration is recorded at that day's
date. -/
theorem step_events_date (cfg : SimConfig) (ro : ℤ → Bool) (st : SimState) (row : PriceRow) :
    ∀ e ∈ (step cfg ro st row).events, eventDate e = row.date := by
  intro e he
  rw [step_events_eq] at he
  rcases List.mem_append.1 he with h | h
  · rcases rollStep_events_shape cfg (ro row.date) row.date row.close row.sigma st with
      hs | ⟨K2, ex2, ov2, hs⟩ | ⟨K, ex, ov, K2, ex2, ov2, hs⟩ <;> rw [hs] at h
    · simp at h
    · simp at h; subst h; rfl
    · simp at h; rcases h with h | h <;> subst h <;> rfl
  · rcases hedgeStep_events_shape cfg row.date row.close
        (markStep cfg row.date row.close row.sigma
          (rollStep cfg (ro row.date) row.date row.close row.sigma st).state).delta
        (rollStep cfg (ro row.date) row.date row.close row.sigma st).state with
      hs | ⟨a, b, p, c, hs⟩ <;> rw [hs] at h
    · simp at h
    · simp at h; subst h; rfl

/-- Within one day-loop iteration a ROLL_CLOSE is always immediately
followed by the paired ROLL_OPEN at the same date. -/
theorem step_events_chain (cfg : SimConfig) (ro : ℤ → Bool) (st : SimState) (row : PriceRow) :
    List.Chain' closeThenOpen (step cfg ro st row).events := by
  rw [step_events_eq]
  rcases rollStep_events_shape cfg (ro row.date) row.date row.close row.sigma st with
    hs | ⟨K2, ex2, ov2, hs⟩ | ⟨K, ex, ov, K2, ex2, ov2, hs⟩ <;>
  rcases hedgeStep_events_shape cfg row.date row.close
      (markStep cfg row.date row.close row.sigma
        (rollStep cfg (ro row.date) row.date row.close row.sigma st).state).delta
      (rollStep cfg (ro row.date) row.date row.close row.sigma st).state with
    hh | ⟨a, b, p, c, hh⟩ <;> rw [hs, hh] <;>
  simp [closeThenOpen, TradeEvent.isRollClose, TradeEvent.isRollOpen, eventDate]

/-- A day-loop iteration never ends its event list with a
ROLL_CLOSE. -/
theorem step_events_last (cfg : SimConfig) (ro : ℤ → Bool) (st : SimState) (row : PriceRow) :
    ∀ e ∈ ((step cfg ro st row).events).getLast?, e.isRollClose = false := by
  rw [step_events_eq]
  rcases rollStep_events_shape cfg (ro row.date) row.date row.close row.sigma st with
    hs | ⟨K2, ex2, ov2, hs⟩ | ⟨K, ex, ov, K2, ex2, ov2, hs⟩ <;>
  rcases hedgeStep_events_shape cfg row.date row.close
      (markStep cfg row.date row.close row.sigma
        (rollStep cfg (ro row.date) row.date row.close row.sigma st).state).delta
      (rollStep cfg (ro row.date) row.date row.close row.sigma st).state with
    hh | ⟨a, b, p, c, hh⟩ <;> rw [hs, hh] <;>
  simp [TradeEvent.isRollClose]

/-- Every trade-log event of a run is recorded at the date of some
input row. -/
theorem runFrom_events_date (cfg : SimConfig) (ro : ℤ → Bool) :
    ∀ (rows : List PriceRow) (st : SimState),
      ∀ e ∈ (runFrom cfg ro st rows).2, ∃ r ∈ rows, eventDate e = r.date := by
  intro rows
  induction rows with
  | nil => intro st e he; simp [runFrom] at he
  | cons row rest ih =>
      intro st e he
      simp only [runFrom] at he
      rcases List.mem_append.1 he with h | h
      · exact ⟨row, List.mem_cons_self row rest, step_events_date cfg ro st row e h⟩
      · rcases ih _ e h with ⟨r, hr, hd⟩
        exact ⟨r, List.mem_cons_of_mem row hr, hd⟩

/-- Across a whole run, every ROLL_CLOSE is immediately followed by a
ROLL_OPEN at the same date, and the log never ends with a
ROLL_CLOSE. -/
theorem runFrom_events_chain (cfg : SimConfig) (ro : ℤ → Bool) :
    ∀ (rows : List PriceRow) (st : SimState),
      List.Chain' closeThenOpen (runFrom cfg ro st rows).2 ∧
      (∀ e ∈ ((runFrom cfg ro st rows).2).getLast?, e.isRollClose = false) := by
  intro rows
  induction rows with
  | nil => intro st; exact ⟨List.chain'_nil, by intro e he; simp [runFrom] at he⟩
  | cons row rest ih =>
      intro st
      have hstep := step_events_chain cfg ro st row
      have hlast := step_events_last cfg ro st row
      have hih := ih (step cfg ro st row).state
      constructor
      · show List.Chain' closeThenOpen
          ((step cfg ro st row).events ++ (runFrom cfg ro (step cfg ro st row).state rest).2)
        refine List.chain'_append.2 ⟨hstep, hih.1, ?_⟩
        intro x hx y _
        intro hcl
        have := hlast x hx
        rw [hcl] at this
        cases this
      · show ∀ e ∈ (((step cfg ro st row).events ++
            (runFrom cfg ro (step cfg ro st row).state rest).2)).getLast?,
          e.isRollClose = false
        intro e he
        rcases hrest : (runFrom cfg ro (step cfg ro st row).state rest).2 with _ | ⟨y, ys⟩
        · rw [hrest, List.append_nil] at he
          exact hlast e he
        · rw [hrest, List.getLast?_append_of_ne_nil _ (by simp)] at he
          rw [hrest] at hih
          exact hih.2 e he

/-- Across a whole run over a strictly date-sorted index, the recorded
dates of adjacent trade-log events are nondecreasing. -/
theorem runFrom_events_dateMono (cfg : SimConfig) (ro : ℤ → Bool) :
    ∀ (rows : List PriceRow) (st : SimState),
      List.Pairwise (· < ·) (rows.map PriceRow.date) →
      List.Chain' dateMono (runFrom cfg ro st rows).2 := by
  intro rows
  induction rows with
  | nil => intro st _; exact List.chain'_nil
  | cons row rest ih =>
      intro st hpw
      rw [List.map_cons, List.pairwise_cons] at hpw
      show List.Chain' dateMono
        ((step cfg ro st row).events ++ (runFrom cfg ro (step cfg ro st row).state rest).2)
      refine List.chain'_append.2 ⟨?_, ih _ hpw.2, ?_⟩
      · refine List.Pairwise.chain' (List.pairwise_of_forall_mem_list ?_)
        intro a ha b hb
        show eventDate a ≤ eventDate b
        rw [step_events_date cfg ro st row a ha, step_events_date cfg ro st row b hb]
      · intro x hx y hy
        have hxd := step_events_date cfg ro st row x (List.mem_of_mem_getLast? hx)
        rcases runFrom_events_date cfg ro rest _ y (List.mem_of_mem_head? hy) with ⟨r, hr, hyd⟩
        show eventDate x ≤ eventDate y
        rw [hxd, hyd]
        exact le_of_lt (hpw.1 r.date (List.mem_map_of_mem PriceRow.date hr))

/-- C4: at most one straddle is active at any time (the state carries a
single optional position), and whenever a roll happens while a position
is held the outgoing position is closed before the new one is opened on
that same date: in the trade log every ROLL_CLOSE is immediately
followed by the paired ROLL_OPEN recorded at the same date, the log
never ends in an unpaired ROLL_CLOSE, and recorded dates are
nondecreasing, so a new straddle's entry date never precedes the
previous straddle's close date. -/
theorem roll_close_precedes_open (cfg : SimConfig) (rows : List PriceRow)
    (initial_cash : ℚ)
    (hsort : List.Chain' (· < ·) (rows.map PriceRow.date)) :
    List.Chain' closeThenOpen (simulate_periodic_straddle cfg rows initial_cash).2 ∧
    (∀ e ∈ ((simulate_periodic_straddle cfg rows initial_cash).2).getLast?,
        e.isRollClose = false) ∧
    List.Chain' dateMono (simulate_periodic_straddle cfg rows initial_cash).2 := by
  have hpw := List.chain'_iff_pairwise.1 hsort
  exact ⟨(runFrom_events_chain cfg (rollFlag rows cfg.pk) rows (initState initial_cash)).1,
    (runFrom_events_chain cfg (rollFlag rows cfg.pk) rows (initState initial_cash)).2,
    runFrom_events_dateMono cfg (rollFlag rows cfg.pk) rows (initState initial_cash) hpw⟩

/-- Witness for C4 on the concrete two-day run. -/
theorem roll_close_precedes_open_witness :
    List.Chain' closeThenOpen (simulate_periodic_straddle cfgA rowsA 100).2 ∧
    (∀ e ∈ ((simulate_periodic_straddle cfgA rowsA 100).2).getLast?,
        e.isRollClose = false) ∧
    List.Chain' dateMono (simulate_periodic_straddle cfgA rowsA 100).2 :=
  roll_close_precedes_open cfgA rowsA 100 (by simp [rowsA])

/-- The trade log of a run over an appended index splits at the state
reached after the prefix. -/
theorem runFrom_append_snd (cfg : SimConfig) (ro : ℤ → Bool) :
    ∀ (xs ys : List PriceRow) (st : SimState),
      (runFrom cfg ro st (xs ++ ys)).2 =
        (runFrom cfg ro st xs).2 ++ (runFrom cfg ro (stateAfter cfg ro st xs) ys).2 := by
  intro xs
  induction xs with
  | nil => intro ys st; simp [runFrom, stateAfter]
  | cons x xs ih =>
      intro ys st
      simp [runFrom, stateAfter, ih, List.append_assoc]

/-- The roll-branch guard of the day loop, as a proposition: the date
is a roll date, or no position is held, or the held position has
reached its expiry. -/
theorem roll_cond_iff (ro : Bool) (t : ℤ) (st : SimState) :
    (ro || !st.in_position ||
      (match st.current_expiry with | some e => decide (e ≤ t) | none => false)) = true ↔
    (ro = true ∨ st.in_position = false ∨
      ∃ ex, st.current_expiry = some ex ∧ ex ≤ t) := by
  rcases hex : st.current_expiry with _ | ex <;> simp [hex]
  tauto

/-- The roll block emits a ROLL_OPEN exactly when its guard holds. -/
theorem rollStep_emits_open_iff (cfg : SimConfig) (ro : Bool) (t : ℤ) (S : ℚ)
    (sig : Option ℚ) (st : SimState) :
    (∃ e ∈ (rollStep cfg ro t S sig st).events, e.isRollOpen = true) ↔
      (ro = true ∨ st.in_position = false ∨
        ∃ ex, st.current_expiry = some ex ∧ ex ≤ t) := by
  unfold rollStep
  split
  next hc =>
    constructor
    · exact fun _ => (roll_cond_iff ro t st).1 hc
    · intro _
      exact ⟨_, List.mem_append_right _ (List.mem_singleton_self _), rfl⟩
  next hc =>
    constructor
    · rintro ⟨e, he, _⟩
      simp at he
    · intro h
      exact absurd ((roll_cond_iff ro t st).2 h) hc

/-- One day-loop iteration emits a ROLL_OPEN exactly when the roll
guard holds at the pre-iteration state. -/
theorem step_emits_open_iff (cfg : SimConfig) (ro : ℤ → Bool) (st : SimState)
    (row : PriceRow) :
    (∃ e ∈ (step cfg ro st row).events, e.isRollOpen = true) ↔
      (ro row.date = true ∨ st.in_position = false ∨
        ∃ ex, st.current_expiry = some ex ∧ ex ≤ row.date) := by
  rw [← rollStep_emits_open_iff cfg (ro row.date) row.date row.close row.sigma st]
  constructor
  · rintro ⟨e, he, hopen⟩
    rw [step_events_eq] at he
    rcases List.mem_append.1 he with h | h
    · exact ⟨e, h, hopen⟩
    · exfalso
      rcases hedgeStep_events_shape cfg row.date row.close
          (markStep cfg row.date row.close row.sigma
            (rollStep cfg (ro row.date) row.date row.close row.sigma st).state).delta
          (rollStep cfg (ro row.date) row.date row.close row.sigma st).state with
        hs | ⟨a, b, p, c, hs⟩ <;> rw [hs] at h
      · simp at h
      · simp at h; subst h; simp [TradeEvent.isRollOpen] at hopen
  · rintro ⟨e, he, hopen⟩
    refine ⟨e, ?_, hopen⟩
    rw [step_events_eq]
    exact List.mem_append_left _ he

/-- C5: for every date `t` of the input series (split as
`pre ++ row :: post` with strictly increasing dates), a new straddle is
opened on `t = row.date` — i.e. a ROLL_OPEN dated `t` appears in the
trade log — if and only if, at the state reached after processing
`pre`: (a) no position is currently held, or (b) `t` belongs to the
roll schedule (the first available trading date of its calendar period
present in the index, per the configured period key), or (c) `t` has
reached or passed the held position's expiry date. -/
theorem straddle_open_iff (cfg : SimConfig) (rows pre post : List PriceRow)
    (row : PriceRow) (initial_cash : ℚ)
    (hsplit : rows = pre ++ row :: post)
    (hsort : List.Chain' (· < ·) (rows.map PriceRow.date)) :
    (∃ e ∈ (simulate_periodic_straddle cfg rows initial_cash).2,
        e.isRollOpen = true ∧ eventDate e = row.date) ↔
      ((stateAfter cfg (rollFlag rows cfg.pk) (initState initial_cash) pre).in_position
          = false ∨
        isRollDate (rows.map PriceRow.date) cfg.pk row.date = true ∨
        ∃ ex, (stateAfter cfg (rollFlag rows cfg.pk) (initState initial_cash)
                pre).current_expiry = some ex ∧ ex ≤ row.date) := by
  subst hsplit
  have hpw := List.chain'_iff_pairwise.1 hsort
  rw [List.map_append, List.map_cons, List.pairwise_append] at hpw
  have hpre : ∀ d ∈ pre.map PriceRow.date, d < row.date := by
    intro d hd
    exact hpw.2.2 d hd row.date (List.mem_cons_self _ _)
  have hpost : ∀ d ∈ post.map PriceRow.date, row.date < d := by
    intro d hd
    exact (List.pairwise_cons.1 hpw.2.1).1 d hd
  have hdec : (simulate_periodic_straddle cfg (pre ++ row :: post) initial_cash).2 =
      (runFrom cfg (rollFlag (pre ++ row :: post) cfg.pk) (initState initial_cash) pre).2 ++
      ((step cfg (rollFlag (pre ++ row :: post) cfg.pk)
          (stateAfter cfg (rollFlag (pre ++ row :: post) cfg.pk) (initState initial_cash) pre)
          row).events ++
        (runFrom cfg (rollFlag (pre ++ row :: post) cfg.pk)
          (step cfg (rollFlag (pre ++ row :: post) cfg.pk)
            (stateAfter cfg (rollFlag (pre ++ row :: post) cfg.pk) (initState initial_cash) pre)
            row).state post).2) := by
    show (runFrom cfg (rollFlag (pre ++ row :: post) cfg.pk) (initState initial_cash)
        (pre ++ row :: post)).2 = _
    rw [runFrom_append_snd]
    rfl
  rw [hdec]
  have hstep := step_emits_open_iff cfg (rollFlag (pre ++ row :: post) cfg.pk)
      (stateAfter cfg (rollFlag (pre ++ row :: post) cfg.pk) (initState initial_cash) pre) row
  simp only [rollFlag] at hstep
  constructor
  · rintro ⟨e, he, hopen, hdate⟩
    rcases List.mem_append.1 he with h | h
    · exfalso
      rcases runFrom_events_date cfg _ pre _ e h with ⟨r, hr, hd⟩
      have := hpre r.date (List.mem_map_of_mem PriceRow.date hr)
      rw [hdate] at hd
      omega
    · rcases List.mem_append.1 h with h2 | h2
      · have := hstep.1 ⟨e, h2, hopen⟩
        tauto
      · exfalso
        rcases runFrom_events_date cfg _ post _ e h2 with ⟨r, hr, hd⟩
        have := hpost r.date (List.mem_map_of_mem PriceRow.date hr)
        rw [hdate] at hd
        omega
  · intro h
    rcases hstep.2 (by tauto) with ⟨e, he, hopen⟩
    exact ⟨e, List.mem_append_right _ (List.mem_append_left _ he), hopen,
      step_events_date cfg _ _ row e he⟩

/-- Witness for C5 on the concrete two-day run: day 1 is not a roll
date, the position opened on day 0 is held, and its expiry (day 4) has
not been reached, so no ROLL_OPEN is emitted on day 1. -/
theorem straddle_open_iff_witness :
    ((∃ e ∈ (simulate_periodic_straddle cfgA rowsA 100).2,
        e.isRollOpen = true ∧
          eventDate e = ({ date := 1, close := 5, sigma := none } : PriceRow).date) ↔
      ((stateAfter cfgA (rollFlag rowsA cfgA.pk) (initState 100)
          [{ date := 0, close := 5, sigma := some 1 }]).in_position = false ∨
        isRollDate (rowsA.map PriceRow.date) cfgA.pk
          ({ date := 1, close := 5, sigma := none } : PriceRow).date = true ∨
        ∃ ex, (stateAfter cfgA (rollFlag rowsA cfgA.pk) (initState 100)
            [{ date := 0, close := 5, sigma := some 1 }]).current_expiry = some ex ∧
          ex ≤ ({ date := 1, close := 5, sigma := none } : PriceRow).date)) :=
  straddle_open_iff cfgA rowsA [{ date := 0, close := 5, sigma := some 1 }] []
    { date := 1, close := 5, sigma := none } 100 rfl (by simp [rowsA])

/-- The Gaussian integrand integrates oddly around zero. -/
theorem gauss_integral_symm (x : ℝ) :
    (∫ t in (0:ℝ)..x, Real.exp (-(t^2))) = - ∫ t in (0:ℝ)..(-x), Real.exp (-(t^2)) := by
  have h := intervalIntegral.integral_comp_neg (a := (0:ℝ)) (b := x) (fun t => Real.exp (-(t^2)))
  simp only [neg_neg, neg_sq, neg_zero] at h
  rw [h, intervalIntegral.integral_symm]

/-- The error function is odd. -/
theorem erf_neg (x : ℝ) : erf (-x) = - erf x := by
  unfold erf
  rw [gauss_integral_symm x]
  ring

/-- The normal CDF satisfies the reflection identity used by put-call
parity. -/
theorem norm_cdf_add_neg (x : ℝ) : norm_cdf x + norm_cdf (-x) = 1 := by
  unfold norm_cdf
  rw [neg_div, erf_neg]
  ring

/-- C3: for every input with `S ≤ 0`, `K ≤ 0`, `T ≤ 0` or `σ ≤ 0`, the
pricing engine returns the "undefined" sentinel for every field of the
result (price, delta, gamma, vega_1pct, theta_day); being a total
function it never throws, and since all five fields are the sentinel
simultaneously no unrelated field is silently corrupted. -/
theorem degenerate_inputs_undefined (S K T r sigma q diy : ℝ) (ty : OptionType)
    (h : S ≤ 0 ∨ K ≤ 0 ∨ T ≤ 0 ∨ sigma ≤ 0) :
    (bs_price_greeks S K T r sigma ty q diy).price = none ∧
    (bs_price_greeks S K T r sigma ty q diy).delta = none ∧
    (bs_price_greeks S K T r sigma ty q diy).gamma = none ∧
    (bs_price_greeks S K T r sigma ty q diy).vega_1pct = none ∧
    (bs_price_greeks S K T r sigma ty q diy).theta_day = none := by
  unfold bs_price_greeks
  rw [if_pos h]
  exact ⟨rfl, rfl, rfl, rfl, rfl⟩

/-- Witness for C3 at `S = -1`. -/
theorem degenerate_inputs_undefined_witness :
    (bs_price_greeks (-1) 1 1 0 1 OptionType.C 0 365).price = none ∧
    (bs_price_greeks (-1) 1 1 0 1 OptionType.C 0 365).delta = none ∧
    (bs_price_greeks (-1) 1 1 0 1 OptionType.C 0 365).gamma = none ∧
    (bs_price_greeks (-1) 1 1 0 1 OptionType.C 0 365).vega_1pct = none ∧
    (bs_price_greeks (-1) 1 1 0 1 OptionType.C 0 365).theta_day = none :=
  degenerate_inputs_undefined (-1) 1 1 0 1 0 365 OptionType.C (Or.inl (by norm_num))

/-- The call price in the valid region, in closed form. -/
theorem bs_call_price_eq (S K T r sigma q diy : ℝ)
    (h : ¬(S ≤ 0 ∨ K ≤ 0 ∨ T ≤ 0 ∨ sigma ≤ 0)) :
    (bs_price_greeks S K T r sigma .C q diy).price =
      some (Real.exp (-(q * T)) * S *
          norm_cdf ((Real.log (S / K) + (r - q + (1/2) * sigma * sigma) * T) /
            (sigma * Real.sqrt T)) -
        Real.exp (-(r * T)) * K *
          norm_cdf ((Real.log (S / K) + (r - q + (1/2) * sigma * sigma) * T) /
              (sigma * Real.sqrt T) - sigma * Real.sqrt T)) := by
  unfold bs_price_greeks
  rw [if_neg h]

/-- The put price in the valid region, in closed form. -/
theorem bs_put_price_eq (S K T r sigma q diy : ℝ)
    (h : ¬(S ≤ 0 ∨ K ≤ 0 ∨ T ≤ 0 ∨ sigma ≤ 0)) :
    (bs_price_greeks S K T r sigma .P q diy).price =
      some (Real.exp (-(r * T)) * K *
          norm_cdf (-((Real.log (S / K) + (r - q + (1/2) * sigma * sigma) * T) /
              (sigma * Real.sqrt T) - sigma * Real.sqrt T)) -
        Real.exp (-(q * T)) * S *
          norm_cdf (-((Real.log (S / K) + (r - q + (1/2) * sigma * sigma) * T) /
            (sigma * Real.sqrt T)))) := by
  unfold bs_price_greeks
  rw [if_neg h]

/-- C2: for every input with `S > 0`, `K > 0`, `T > 0`, `σ > 0`, the
call and put prices returned by `bs_price_greeks` satisfy put-call
parity `call − put = S·e^(−qT) − K·e^(−rT)` within the floating
tolerance `1e-8` (in the exact real model the identity is exact, so the
difference is `0`). -/
theorem put_call_parity (S K T r sigma q diy : ℝ)
    (hS : 0 < S) (hK : 0 < K) (hT : 0 < T) (hsig : 0 < sigma) :
    ∃ c p : ℝ,
      (bs_price_greeks S K T r sigma .C q diy).price = some c ∧
      (bs_price_greeks S K T r sigma .P q diy).price = some p ∧
      |c - p - (S * Real.exp (-(q * T)) - K * Real.exp (-(r * T)))| ≤ 1/100000000 := by
  have h : ¬(S ≤ 0 ∨ K ≤ 0 ∨ T ≤ 0 ∨ sigma ≤ 0) := by
    push_neg
    exact ⟨hS, hK, hT, hsig⟩
  refine ⟨_, _, bs_call_price_eq S K T r sigma q diy h,
    bs_put_price_eq S K T r sigma q diy h, ?_⟩
  have h1 := norm_cdf_add_neg ((Real.log (S / K) + (r - q + (1/2) * sigma * sigma) * T) /
    (sigma * Real.sqrt T))
  have h2 := norm_cdf_add_neg ((Real.log (S / K) + (r - q + (1/2) * sigma * sigma) * T) /
    (sigma * Real.sqrt T) - sigma * Real.sqrt T)
  have hz : Real.exp (-(q * T)) * S *
        norm_cdf ((Real.log (S / K) + (r - q + (1/2) * sigma * sigma) * T) /
          (sigma * Real.sqrt T)) -
      Real.exp (-(r * T)) * K *
        norm_cdf ((Real.log (S / K) + (r - q + (1/2) * sigma * sigma) * T) /
            (sigma * Real.sqrt T) - sigma * Real.sqrt T) -
      (Real.exp (-(r * T)) * K *
          norm_cdf (-((Real.log (S / K) + (r - q + (1/2) * sigma * sigma) * T) /
              (sigma * Real.sqrt T) - sigma * Real.sqrt T)) -
        Real.exp (-(q * T)) * S *
          norm_cdf (-((Real.log (S / K) + (r - q + (1/2) * sigma * sigma) * T) /
            (sigma * Real.sqrt T)))) -
      (S * Real.exp (-(q * T)) - K * Real.exp (-(r * T))) = 0 := by
    linear_combination (Real.exp (-(q * T)) * S) * h1 - (Real.exp (-(r * T)) * K) * h2
  rw [hz]
  norm_num

/-- Witness for C2 at `S = K = T = σ = 1`, `r = q = 0`. -/
theorem put_call_parity_witness :
    ∃ c p : ℝ,
      (bs_price_greeks 1 1 1 0 1 .C 0 365).price = some c ∧
      (bs_price_greeks 1 1 1 0 1 .P 0 365).price = some p ∧
      |c - p - (1 * Real.exp (-(0 * 1)) - 1 * Real.exp (-(0 * 1)))| ≤ 1/100000000 :=
  put_call_parity 1 1 1 0 1 0 365 (by norm_num) (by norm_num) (by norm_num) (by norm_num)

/-- C7: the delta-neutral hedge solver returns
`n = −base_delta / hedge_delta` and `total = base + n·hedge`
componentwise whenever `|hedge_delta|` is at least the numerical
tolerance `1e-8`, making the residual total delta exactly zero (hence
below `1e-9`); when `|hedge_delta|` is below the tolerance it reports
an error condition instead of crashing. -/
theorem delta_neutral_solver_spec (base hedgeG : PG) :
    (1/100000000 ≤ |hedgeG.delta| →
      ∃ res, delta_neutral_with_option base hedgeG = .ok res ∧
        res.n_hedge = -base.delta / hedgeG.delta ∧
        res.base = base ∧ res.hedgeLeg = hedgeG ∧
        res.total = pgLinComb base hedgeG res.n_hedge ∧
        |base.delta + res.n_hedge * hedgeG.delta| < 1/1000000000) ∧
    (|hedgeG.delta| < 1/100000000 →
      ∃ msg, delta_neutral_with_option base hedgeG = .error msg) := by
  constructor
  · intro hge
    have hne : hedgeG.delta ≠ 0 := by
      intro h0
      rw [h0] at hge
      norm_num at hge
    refine ⟨{ n_hedge := -base.delta / hedgeG.delta, base := base, hedgeLeg := hedgeG,
              total := pgLinComb base hedgeG (-base.delta / hedgeG.delta) },
        ?_, rfl, rfl, rfl, rfl, ?_⟩
    · unfold delta_neutral_with_option
      rw [if_neg (not_lt.2 hge)]
    · show |base.delta + -base.delta / hedgeG.delta * hedgeG.delta| < 1/1000000000
      rw [div_mul_cancel₀ _ hne]
      norm_num
  · intro hlt
    refine ⟨"hedge option delta too close to zero; cannot neutralize delta", ?_⟩
    unfold delta_neutral_with_option
    rw [if_pos hlt]

/-- Witness for C7 with base delta 2 and hedge delta 1/2: the solver
returns the ratio −4 and a total with zero delta. -/
theorem delta_neutral_solver_spec_witness :
    ∃ res, delta_neutral_with_option
        { price := 10, delta := 2, gamma := 3, vega_1pct := 4, theta_day := 5 }
        { price := 1, delta := 1/2, gamma := 1, vega_1pct := 1, theta_day := 1 } = .ok res ∧
      res.n_hedge = -(2 : ℚ) / (1/2) ∧
      res.base = { price := 10, delta := 2, gamma := 3, vega_1pct := 4, theta_day := 5 } ∧
      res.hedgeLeg = { price := 1, delta := 1/2, gamma := 1, vega_1pct := 1, theta_day := 1 } ∧
      res.total = pgLinComb
        { price := 10, delta := 2, gamma := 3, vega_1pct := 4, theta_day := 5 }
        { price := 1, delta := 1/2, gamma := 1, vega_1pct := 1, theta_day := 1 } res.n_hedge ∧
      |(2 : ℚ) + res.n_hedge * (1/2)| < 1/1000000000 :=
  (delta_neutral_solver_spec
    { price := 10, delta := 2, gamma := 3, vega_1pct := 4, theta_day := 5 }
    { price := 1, delta := 1/2, gamma := 1, vega_1pct := 1, theta_day := 1 }).1
    (by rw [abs_of_pos (by norm_num : (0:ℚ) < 1/2)]; norm_num)

/-- C9: in `simulate_legging_cost`, the combo baseline is the sum of
the call and put prices both evaluated at the same spot `S` multiplied
by `1 + combo_bps/10000`; each legged sample is the first leg priced at
`S` plus the second leg priced at `S + dS i`, the sum multiplied by
`1 + leg_bps/10000`, where `dS i` is the generator draw
`scale * z i` with scale `S·σ·√(delay_seconds/seconds_per_year)` (the
zero-mean Gaussian of that standard deviation); and the reported extra
cost of each sample is the legged execution price minus the combo
execution price.  Stated for the order `C_then_P` used by the drivers;
the mirrored order prices the put first. -/
theorem legging_cost_spec (S K T r sigma q : ℝ) (params : ExecutionParams) (z : ℕ → ℝ) :
    (simulate_legging_cost S K T r sigma q params .C_then_P z).combo_exec =
      (oadd (bs_price_greeks S K T r sigma .C q 365).price
        (bs_price_greeks S K T r sigma .P q 365).price).map
        (fun p => p * (1 + params.slippage_bps_combo / 10000)) ∧
    (simulate_legging_cost S K T r sigma q params .C_then_P z).dS =
      (List.range params.n_sims).map (fun i =>
        S * sigma * Real.sqrt (params.leg_delay_seconds / params.seconds_in_year) * z i) ∧
    (simulate_legging_cost S K T r sigma q params .C_then_P z).exec_legs =
      (List.range params.n_sims).map (fun i =>
        (oadd (bs_price_greeks S K T r sigma .C q 365).price
          (bs_price_greeks
            (S + S * sigma * Real.sqrt (params.leg_delay_seconds / params.seconds_in_year) * z i)
            K T r sigma .P q 365).price).map
          (fun p => p * (1 + params.slippage_bps_leg / 10000))) ∧
    (simulate_legging_cost S K T r sigma q params .C_then_P z).extra =
      ((simulate_legging_cost S K T r sigma q params .C_then_P z).exec_legs).map
        (fun e => osub e (simulate_legging_cost S K T r sigma q params .C_then_P z).combo_exec) ∧
    (simulate_legging_cost S K T r sigma q params .P_then_C z).exec_legs =
      (List.range params.n_sims).map (fun i =>
        (oadd (bs_price_greeks S K T r sigma .P q 365).price
          (bs_price_greeks
            (S + S * sigma * Real.sqrt (params.leg_delay_seconds / params.seconds_in_year) * z i)
            K T r sigma .C q 365).price).map
          (fun p => p * (1 + params.slippage_bps_leg / 10000))) := by
  refine ⟨rfl, ?_, ?_, rfl, ?_⟩
  · unfold simulate_legging_cost
    dsimp only
    simp only [zero_add]
  · unfold simulate_legging_cost
    dsimp only
    simp only [List.map_map]
    apply List.map_congr_left
    intro i _
    simp only [Function.comp, zero_add, _apply_slippage]
  · unfold simulate_legging_cost
    dsimp only
    simp only [List.map_map]
    apply List.map_congr_left
    intro i _
    simp only [Function.comp, zero_add, _apply_slippage]
